/-
Verification of the Beatbox SOAP engine (beatbox/_beatbox.py, beatbox/xmltramp.py)
against its natural-language specification.

The Python sources are shallowly embedded: classes become structures, methods
become pure functions, raised exceptions become explicit constructors of result
types, and Python strings are modelled as `List Char`.  Each definition carries
a note naming the Python function it embeds.
-/
import Mathlib

namespace Beatbox

/-! ### Namespace constants (module-level constants of `_beatbox.py`) -/

def envNs : String := "http://schemas.xmlsoap.org/soap/envelope/"

def partnerNs : String := "urn:partner.soap.sforce.com"

def sobjectNs : String := "urn:sobject.partner.soap.sforce.com"

def xsiNs : String := "http://www.w3.org/2001/XMLSchema-instance"

def faultLocal : String := "Fault"

def bodyLocal : String := "Body"

def faultstringLocal : String := "faultstring"

def faultcodeLocal : String := "faultcode"

/-! ### The xmltramp document model

`xmltramp.Element` stores a name that is either a plain string (an unqualified
name) or a `(uri, local)` tuple (a qualified name), an attribute dict, an
ordered child list mixing text fragments and elements, and the default
namespace `_dNS` in scope at the element. -/

/-- Element or attribute name as stored by `xmltramp.Element`: either a bare
string or a `(namespaceURI, localName)` tuple. -/
inductive XName where
  | unq (l : String)
  | q (uri l : String)
deriving DecidableEq, Repr

/-- Node of the parsed tree: a text fragment or an element
(`xmltramp.Element` with fields `_name`, `_attrs`, `_dir`, `_dNS`). -/
inductive XNode where
  | text (s : List Char)
  | elem (name : XName) (attrs : List (XName × List Char))
      (children : List XNode) (dNS : Option String)

def XNode.childList : XNode → List XNode
  | .text _ => []
  | .elem _ _ cs _ => cs

/-- Does this node compare equal to the lookup key `x._name == n`
(text fragments never match)? -/
def isElemNamed (n : XName) : XNode → Bool
  | .text _ => false
  | .elem m _ _ _ => m = n

/-- Embeds `Element.__getitem__` with a `(uri, local)` tuple key: the key is a
tuple, so `_dNS` is not prepended; the first matching child is returned and a
missing child raises `KeyError` (here `none`). -/
def getItemQ (e : XNode) (uri l : String) : Option XNode :=
  (XNode.childList e).find? (isElemNamed (XName.q uri l))

/-- Embeds the qualification step `if self._dNS: n = (self._dNS, n)` of
`Element.__getattr__`: Python truthiness makes an absent or empty `_dNS`
leave the name unqualified. -/
def qualifyLookup (d : Option String) (n : String) : XName :=
  match d with
  | some u => if u = "" then XName.unq n else XName.q u n
  | none => XName.unq n

/-- Embeds `Element.__getattr__ (d.foo)`: a name starting with an underscore
raises `AttributeError` at `if n[0] == '_'` before any child search (and the
empty name raises `IndexError` there); otherwise the bare name is qualified
with a truthy `_dNS` and the first matching child element is returned, a
missing child raising `AttributeError`.  All three raises are `none` here. -/
def getAttrChild (e : XNode) (n : String) : Option XNode :=
  match e with
  | .text _ => none
  | .elem _ _ cs d =>
    match n.toList with
    | [] => none
    | c0 :: _ =>
      if c0 = '_' then none
      else cs.find? (isElemNamed (qualifyLookup d n))

/-! ### Python string helpers used by the embedding -/

/-- Embeds Python `s.split(sep)` for a one-character separator: splits at every
occurrence, keeping empty segments; the empty string yields `[[]]`. -/
def pySplitChar (sep : Char) : List Char → List (List Char)
  | [] => [[]]
  | c :: t =>
    let r := pySplitChar sep t
    if c = sep then [] :: r
    else (c :: r.headD []) :: r.tail

/-- Embeds `s.split(':')[-1]` from `BaseSoapConnection.post` /
`SoapEnvelope.post`: the segment after the last colon. -/
def lastColonSeg (s : List Char) : List Char :=
  (pySplitChar ':' s).getLastD []

/-- Splits at every character satisfying `p`, keeping empty segments
(generalizes `pySplitChar`). -/
def pySplitP (p : Char → Bool) : List Char → List (List Char)
  | [] => [[]]
  | c :: t =>
    let r := pySplitP p t
    if p c then [] :: r
    else (c :: r.headD []) :: r.tail

/-- Embeds Python `text.split()` (split on whitespace runs, dropping empty
groups). -/
def pyWsSplit (s : List Char) : List (List Char) :=
  (pySplitP Char.isWhitespace s).filter (fun g => g ≠ [])

/-- Embeds `' '.join(text.split())`, the whitespace collapse in
`Element.__str__`. -/
def collapseWs (s : List Char) : List Char :=
  List.intercalate [' '] (pyWsSplit s)

mutual

/-- Embeds `Element.__str__` / `str(element)`: concatenate the string forms of
all children (text fragments verbatim, elements recursively), then collapse
whitespace runs and trim via `' '.join(text.split())`. -/
def strOfNode : XNode → List Char
  | .text s => s
  | .elem _ _ cs _ => collapseWs (strConcat cs)

/-- String forms of a child list, concatenated (the loop in
`Element.__str__`). -/
def strConcat : List XNode → List Char
  | [] => []
  | n :: t => strOfNode n ++ strConcat t

end

/-! ### SoapEnvelope.post response decoding (`_beatbox.py` lines 712-725)

After parsing, `SoapEnvelope.post` checks `tramp[Body][Fault]` (a missing
`Fault` raises `KeyError`, which the code swallows), raising
`SoapFaultError(faultCode, faultString)` when a fault is present; otherwise it
takes `result = tramp[Body][0]` and applies the asymmetric unwrap:
`result[:]` when `alwaysReturnList or len(result) > 1`, else `result[0]`. -/

/-- Outcome of the decode tail of `SoapEnvelope.post`. Python exceptions are
explicit constructors; `node`/`nodes`/`strVal`/`charVal` are the possible
return values (the first body child may be an element or a text fragment). -/
inductive PostDecode where
  | soapFault (code msg : List Char)
  | attrError
  | node (n : XNode)
  | nodes (ns : List XNode)
  | strVal (s : List Char)
  | charVal (c : Char)
  | indexError

/-- Embeds the response-decoding tail of `SoapEnvelope.post` applied to the
already-located `Body` node. -/
def soapEnvelopePost (body : XNode) (alwaysReturnList : Bool) : PostDecode :=
  match getItemQ body envNs faultLocal with
  | some fault =>
    (match getAttrChild fault faultstringLocal with
     | none => PostDecode.attrError
     | some fs =>
       match getAttrChild fault faultcodeLocal with
       | none => PostDecode.attrError
       | some fc =>
         PostDecode.soapFault (lastColonSeg (strOfNode fc)) (strOfNode fs))
  | none =>
    match XNode.childList body with
    | [] => PostDecode.indexError
    | r :: _ =>
      match r with
      | .elem _ _ ch _ =>
        if alwaysReturnList || decide (1 < ch.length) then PostDecode.nodes ch
        else
          match ch with
          | [] => PostDecode.indexError
          | c :: _ => PostDecode.node c
      | .text s =>
        if alwaysReturnList || decide (1 < s.length) then PostDecode.strVal s
        else
          match s with
          | [] => PostDecode.indexError
          | c :: _ => PostDecode.charVal c

/-- Name of the `Body` element (only used to build concrete bodies; the decode
tail never inspects it). -/
def bodyName : XName := XName.q envNs bodyLocal

/-- Body node holding a single operation-response wrapper element. -/
def mkBody (wname : XName) (wattrs : List (XName × List Char))
    (wch : List XNode) (wdns : Option String) : XNode :=
  XNode.elem bodyName [] [XNode.elem wname wattrs wch wdns] none

/-- The fault lookup misses when the single body child is not named
`(envNs, Fault)`. -/
theorem getItemQ_mkBody_none (wname : XName) (wattrs : List (XName × List Char))
    (wch : List XNode) (wdns : Option String)
    (hw : wname ≠ XName.q envNs faultLocal) :
    getItemQ (mkBody wname wattrs wch wdns) envNs faultLocal = none := by
  simp [getItemQ, mkBody, XNode.childList, isElemNamed, List.find?, hw]

/-- C4: for a non-fault Body whose single child is the response wrapper, the
unwrap returns the wrapper's children as an ordered collection whenever
`alwaysReturnList` is true or the wrapper has more than one child, and
otherwise (flag false, exactly one child) returns that single child directly,
not wrapped in a collection. -/
theorem c4_unwrap_asymmetry (wname : XName) (wattrs : List (XName × List Char))
    (wch : List XNode) (wdns : Option String) (b : Bool)
    (hw : wname ≠ XName.q envNs faultLocal) :
    ((b = true ∨ 1 < wch.length) →
      soapEnvelopePost (mkBody wname wattrs wch wdns) b = PostDecode.nodes wch)
    ∧ (∀ c, wch = [c] →
      soapEnvelopePost (mkBody wname wattrs wch wdns) false = PostDecode.node c) := by
  have hf := getItemQ_mkBody_none wname wattrs wch wdns hw
  constructor
  · intro h
    simp only [soapEnvelopePost]
    rw [hf]
    simp only [mkBody, XNode.childList]
    rcases h with rfl | h
    · simp
    · have hd : decide (1 < wch.length) = true := by simpa using h
      simp [hd]
  · rintro c rfl
    simp only [soapEnvelopePost]
    rw [hf]
    simp [mkBody, XNode.childList]

/-- C4 witness at a concrete wrapper. -/
theorem c4_unwrap_asymmetry_witness :
    soapEnvelopePost
      (mkBody (XName.q partnerNs ("queryResponse")) [] [XNode.text [('r')]] none)
      false = PostDecode.node (XNode.text [('r')]) :=
  (c4_unwrap_asymmetry (XName.q partnerNs ("queryResponse")) [] [XNode.text [('r')]]
    none false (by decide)).2 (XNode.text [('r')]) rfl

/-- C9: for a non-fault Body whose wrapper has zero children, the unwrap with
`alwaysReturnList` false does not return a value but fails with an
out-of-range indexing error (the single-child branch indexes child 0
unguarded), whereas with the flag true it returns the empty collection. -/
theorem c9_empty_wrapper (wname : XName) (wattrs : List (XName × List Char))
    (wdns : Option String)
    (hw : wname ≠ XName.q envNs faultLocal) :
    soapEnvelopePost (mkBody wname wattrs [] wdns) false = PostDecode.indexError
    ∧ soapEnvelopePost (mkBody wname wattrs [] wdns) true = PostDecode.nodes [] := by
  have hf := getItemQ_mkBody_none wname wattrs [] wdns hw
  constructor <;>
  · simp only [soapEnvelopePost]
    rw [hf]
    simp [mkBody, XNode.childList]

/-- C9 witness at a concrete empty wrapper. -/
theorem c9_empty_wrapper_witness :
    soapEnvelopePost (mkBody (XName.q partnerNs ("queryResponse")) [] [] none)
      false = PostDecode.indexError :=
  (c9_empty_wrapper (XName.q partnerNs ("queryResponse")) [] none (by decide)).1

/-! ### BaseSoapConnection.post fault classification (`_beatbox.py` lines 483-494)

The new-style connection extracts `faultstring`, computes
`faultCode = str(fault.faultcode).split(':')[-1]` (namespace prefix stripped),
and raises `error_map.get(faultCode, SoapFaultError)(faultCode, faultString)`.
Crucially, the keys of `error_map` in the source are the UNSTRIPPED strings
`'sf:INVALID_SESSION_ID'` and `'sf:INVALID_LOGIN'`. -/

/-- Exception class raised for a fault: `SoapInvalidSession`,
`SoapInvalidLogin`, or the base `SoapFaultError`. -/
inductive FaultClass where
  | invalidSession
  | invalidLogin
  | generic
deriving DecidableEq, Repr

def sfSessionKey : List Char := ("sf:INVALID_SESSION_ID").toList

def sfLoginKey : List Char := ("sf:INVALID_LOGIN").toList

/-- Embeds `error_map.get(faultCode, SoapFaultError)`: the dict literal in
`BaseSoapConnection.post` keyed by the prefixed code strings. -/
def errorMapGet (code : List Char) : FaultClass :=
  if code = sfSessionKey then FaultClass.invalidSession
  else if code = sfLoginKey then FaultClass.invalidLogin
  else FaultClass.generic

/-- Outcome of the fault check in `BaseSoapConnection.post`: either the body is
fault-free and decoding proceeds, or a typed exception is raised carrying the
stripped code and the message. -/
inductive BasePostOutcome where
  | ok (body : XNode)
  | raised (cls : FaultClass) (code msg : List Char)
  | attrError

/-- Embeds the fault-detection block of `BaseSoapConnection.post`
(`response_body[Fault]`; on presence: `faultString = str(fault.faultstring)`,
`faultCode = str(fault.faultcode).split(':')[-1]`, then the `error_map`
lookup). -/
def basePostFaultCheck (body : XNode) : BasePostOutcome :=
  match getItemQ body envNs faultLocal with
  | none => BasePostOutcome.ok body
  | some fault =>
    match getAttrChild fault faultstringLocal with
    | none => BasePostOutcome.attrError
    | some fs =>
      match getAttrChild fault faultcodeLocal with
      | none => BasePostOutcome.attrError
      | some fc =>
        let faultString := strOfNode fs
        let faultCode := lastColonSeg (strOfNode fc)
        BasePostOutcome.raised (errorMapGet faultCode) faultCode faultString

def sessionCodeText : List Char := ("sf:INVALID_SESSION_ID").toList

def sessionMsgText : List Char := ("Session expired").toList

def strippedSessionCode : List Char := ("INVALID_SESSION_ID").toList

/-- Concrete SOAP fault: `faultcode` text `sf:INVALID_SESSION_ID`,
`faultstring` text `Session expired` (both unqualified children, as on the
wire). -/
def c1FaultNode : XNode :=
  XNode.elem (XName.q envNs faultLocal) []
    [ XNode.elem (XName.unq faultcodeLocal) [] [XNode.text sessionCodeText] none
    , XNode.elem (XName.unq faultstringLocal) [] [XNode.text sessionMsgText] none ]
    none

def c1Body : XNode := XNode.elem bodyName [] [c1FaultNode] none

/-- C1 evaluated at the failing input: the message `Session expired` is
extracted and the prefix `sf:` is stripped from the code as the claim states,
but the classification lands on the Generic kind (base `SoapFaultError`), not
`InvalidSession`: the `error_map` keys retain the `sf:` prefix while the
lookup key is the stripped code, so the lookup can never hit. -/
theorem c1_session_fault_classified_generic :
    basePostFaultCheck c1Body
      = BasePostOutcome.raised FaultClass.generic strippedSessionCode sessionMsgText
    ∧ errorMapGet strippedSessionCode = FaultClass.generic
    ∧ lastColonSeg sessionCodeText = strippedSessionCode := by
  refine ⟨?_, by decide, by decide⟩
  rfl

/-! ### Default-namespace asymmetry in xmltramp (C7)

`xmltramp.Seeder.startElementNS` builds `Element(name, attrs, prefixes=...)`.
`Element.__init__` keeps a `(uri, local)` tuple name as-is, flattens a
`(None, local)` name (and every `(None, local)` attribute key) to the bare
local name, and records the default namespace `_dNS = prefixes.get(None)`.
`Element.__getattr__` qualifies a bare child name with `_dNS` before
searching. -/

/-- Embeds the name normalization of `Element.__init__`
(`if islst(name) and name[0] is None: name = name[1]`). -/
def normName (n : Option String × String) : XName :=
  match n with
  | (none, l) => XName.unq l
  | (some u, l) => XName.q u l

/-- Embeds `_dNS = prefixes.get(None, None) if prefixes else None` from
`Element.__init__`; the map lists `(prefix, uri)` pairs with key `none` for
the default namespace, as delivered by `startPrefixMapping`. -/
def dNSOf (pm : List (Option String × String)) : Option String :=
  if pm.isEmpty then none
  else (pm.find? (fun p => p.1 = none)).map (fun p => p.2)

/-- Embeds `Element.__init__` as invoked by `Seeder.startElementNS`: raw SAX
names are normalized, attribute keys likewise, and the default namespace in
scope is recorded. -/
def mkElement (rawName : Option String × String)
    (rawAttrs : List ((Option String × String) × List Char))
    (children : List XNode) (pm : List (Option String × String)) : XNode :=
  XNode.elem (normName rawName)
    (rawAttrs.map (fun kv => (normName kv.1, kv.2))) children (dNSOf pm)

/-- Modelled from the spec: the external SAX parser (`xml.sax` with
`feature_namespaces` on, used by `xmltramp.seed`) resolves an unprefixed
ELEMENT name against the default namespace in scope, yielding
`(defaultNS, local)`. -/
def saxElementName (defaultNS : Option String) (l : String) :
    Option String × String :=
  (defaultNS, l)

/-- Modelled from the spec: the same SAX parser never applies the default
namespace to an unprefixed ATTRIBUTE name, which always arrives as
`(None, local)`. -/
def saxAttrName (l : String) : Option String × String :=
  (none, l)

/-- C7: beneath `xmlns="uri"`, an unprefixed element resolves to the qualified
name `(uri, name)` while an unprefixed attribute on the same element stays
unqualified (`(None, name)`, stored as the bare local name); child lookup
through `__getattr__` on such an element searches for the `_dNS`-qualified
name — for the names that reach the search, i.e. those not starting with an
underscore — so the default binding steers element navigation but never
attribute keys; an underscore-leading name raises `AttributeError` at the
guard, before any search. -/
theorem c7_default_ns_never_applies_to_attrs (uri el al : String)
    (v : List Char) (children : List XNode) (huri : uri ≠ "") :
    (mkElement (saxElementName (some uri) el) [(saxAttrName al, v)] children
        [(none, uri)]
      = XNode.elem (XName.q uri el) [(XName.unq al, v)] children (some uri))
    ∧ (∀ n attrs cs c0 r, n.toList = c0 :: r → c0 ≠ '_' →
        getAttrChild (XNode.elem (XName.q uri el) attrs cs (some uri)) n
          = cs.find? (isElemNamed (XName.q uri n)))
    ∧ (∀ n attrs cs r, n.toList = '_' :: r →
        getAttrChild (XNode.elem (XName.q uri el) attrs cs (some uri)) n
          = none) := by
  refine ⟨rfl, ?_, ?_⟩
  · intro n attrs cs c0 r hn hc0
    simp only [getAttrChild]
    rw [hn]
    simp [hc0, qualifyLookup, huri]
  · intro n attrs cs r hn
    simp only [getAttrChild]
    rw [hn]
    simp

/-- C7 witness: a concrete default-namespace element, a child lookup by an
ordinary name, and the guard on an underscore name. -/
theorem c7_default_ns_never_applies_to_attrs_witness :
    (mkElement (saxElementName (some ("http://a")) ("doc"))
        [(saxAttrName ("version"), [('1')])] [] [(none, ("http://a"))]
      = XNode.elem (XName.q ("http://a") ("doc"))
          [(XName.unq ("version"), [('1')])] [] (some ("http://a")))
    ∧ getAttrChild
        (XNode.elem (XName.q ("http://a") ("doc")) [] [] (some ("http://a")))
        ("author")
      = List.find? (isElemNamed (XName.q ("http://a") ("author"))) []
    ∧ getAttrChild
        (XNode.elem (XName.q ("http://a") ("doc")) [] [] (some ("http://a")))
        ("_dir")
      = none :=
  ⟨(c7_default_ns_never_applies_to_attrs ("http://a") ("doc") ("version")
      [('1')] [] (by decide)).1,
    (c7_default_ns_never_applies_to_attrs ("http://a") ("doc") ("version")
      [('1')] [] (by decide)).2.1 ("author") [] [] 'a' (("uthor").toList)
      (by decide) (by decide),
    (c7_default_ns_never_applies_to_attrs ("http://a") ("doc") ("version")
      [('1')] [] (by decide)).2.2 ("_dir") [] [] (("dir").toList) (by decide)⟩

/-! ### SoapWriter.writeStringElement nil handling (C8)

`XmlWriter.writeStringElement` writes one element per item for a list value,
otherwise a single element whose text is the scalar coerced by `characters`.
`SoapWriter.writeStringElement` first maps a `None` value to an empty string
with an added `xsi:nil="true"` attribute. -/

/-- Writer attribute key `(namespaceURI, localName)` as used by
`AttributesNSImpl`. -/
abbrev AttrKey := Option String × String

/-- Python value passed to `writeStringElement` (`datetime`/`date`/`float`
coercions of `characters` are omitted: no claim concerns them). -/
inductive PyVal where
  | pynone
  | str (s : List Char)
  | int (n : Int)
  | list (vs : List PyVal)

/-- Embeds the scalar coercion in `XmlWriter.characters` followed by the SAX
generator write: ints via `str()`, strings unchanged.  `characters(None)`
reaches `XMLGenerator.characters`, whose `if content:` makes it a silent
no-op, so `None` contributes empty character data exactly like the empty
string.  A list never reaches `characters` (the list branch of
`writeStringElement` intercepts it first). -/
def charsOf : PyVal → List Char
  | .str s => s
  | .int n => (toString n).toList
  | .pynone => []
  | .list _ => []

/-- One serialized element: name, attributes and the character data handed to
the generator. -/
structure Emitted where
  ns : String
  name : String
  attrs : List (AttrKey × List Char)
  content : List Char
deriving DecidableEq, Repr

/-- Embeds Python dict assignment `d[k] = v`: replace the value under an
existing key, else append the new pair. -/
def dictSet (k : AttrKey) (v : List Char) (d : List (AttrKey × List Char)) :
    List (AttrKey × List Char) :=
  if d.any (fun p => p.1 = k) then d.map (fun p => if p.1 = k then (k, v) else p)
  else d ++ [(k, v)]

def nilKey : AttrKey := (some xsiNs, "nil")

def trueChars : List Char := ("true").toList

mutual

/-- Embeds `XmlWriter.writeStringElement` as executed on a plain `XmlWriter`
instance: a list value produces repeating sibling elements — the loop's
`self.writeStringElement` resolves to this same method — and a scalar
produces a single element containing its coerced text. -/
def xmlWriterWSE (ns name : String) (attrs : List (AttrKey × List Char)) :
    PyVal → List Emitted
  | .list vs => xmlWriterWSEList ns name attrs vs
  | v => [⟨ns, name, attrs, charsOf v⟩]

/-- The `for v in value` loop on a plain `XmlWriter`. -/
def xmlWriterWSEList (ns name : String) (attrs : List (AttrKey × List Char)) :
    List PyVal → List Emitted
  | [] => []
  | v :: vs => xmlWriterWSE ns name attrs v ++ xmlWriterWSEList ns name attrs vs

end

mutual

/-- Size measure for the SOAP writer recursion (the `None` branch re-enters
the inherited method with the scalar empty string). -/
def pvSize : PyVal → Nat
  | .pynone => 0
  | .str _ => 0
  | .int _ => 0
  | .list vs => 1 + pvListSize vs

def pvListSize : List PyVal → Nat
  | [] => 0
  | v :: vs => 1 + pvSize v + pvListSize vs

end

mutual

/-- Embeds `XmlWriter.writeStringElement` as inherited and executed on a
`SoapWriter` instance: the body is the same, but the loop's
`self.writeStringElement` dynamically dispatches to the `SoapWriter`
override, so `None` items inside a list become `xsi:nil` elements. -/
def xmlWriterWSEOnSoap (ns name : String) (attrs : List (AttrKey × List Char)) :
    PyVal → List Emitted
  | .list vs => soapWSEList ns name attrs vs
  | v => [⟨ns, name, attrs, charsOf v⟩]
termination_by v => 3 * pvSize v
decreasing_by all_goals (try simp only [pvSize, pvListSize]) <;> omega

/-- The `for v in value` loop executed on a `SoapWriter` (each item goes
through the override). -/
def soapWSEList (ns name : String) (attrs : List (AttrKey × List Char)) :
    List PyVal → List Emitted
  | [] => []
  | v :: vs => soapWriterWSE ns name attrs v ++ soapWSEList ns name attrs vs
termination_by vs => 3 * pvListSize vs + 2
decreasing_by all_goals (try simp only [pvSize, pvListSize]) <;> omega

/-- Embeds `SoapWriter.writeStringElement`: `None` becomes the empty string
with `xsi:nil="true"` added to the attributes (Python mutates the dict or
builds `{(xsiNs, 'nil'): 'true'}` when it was empty; both equal `dictSet` on
the given attributes); every other value is passed unchanged to the
inherited `XmlWriter.writeStringElement` — still running on the
`SoapWriter`. -/
def soapWriterWSE (ns name : String) (attrs : List (AttrKey × List Char)) :
    PyVal → List Emitted
  | .pynone =>
    xmlWriterWSEOnSoap ns name (dictSet nilKey trueChars attrs) (PyVal.str [])
  | v => xmlWriterWSEOnSoap ns name attrs v
termination_by v => 3 * pvSize v + 1
decreasing_by all_goals (try simp only [pvSize, pvListSize]) <;> omega

end

/-- C8 counterexample: the list `[None]`.  On the `SoapWriter` the loop
re-enters the override, so the `None` item becomes an `xsi:nil="true"`
element; the plain writer emits a bare empty element (its `characters(None)`
writes nothing).  This non-`None` value is therefore not emitted as by the
general writer. -/
theorem c8_list_with_none_differs :
    soapWriterWSE partnerNs ("accountId") [] (PyVal.list [PyVal.pynone])
      = [⟨partnerNs, ("accountId"), [(nilKey, trueChars)], []⟩]
    ∧ xmlWriterWSE partnerNs ("accountId") [] (PyVal.list [PyVal.pynone])
      = [⟨partnerNs, ("accountId"), [], []⟩]
    ∧ soapWriterWSE partnerNs ("accountId") [] (PyVal.list [PyVal.pynone])
      ≠ xmlWriterWSE partnerNs ("accountId") [] (PyVal.list [PyVal.pynone]) := by
  have hx : xmlWriterWSE partnerNs ("accountId") [] (PyVal.list [PyVal.pynone])
      = [⟨partnerNs, ("accountId"), [], []⟩] := rfl
  have hs1 : soapWriterWSE partnerNs ("accountId") [] (PyVal.list [PyVal.pynone])
      = soapWSEList partnerNs ("accountId") [] [PyVal.pynone] := by
    simp only [soapWriterWSE, xmlWriterWSEOnSoap]
  have hs2 : soapWSEList partnerNs ("accountId") [] [PyVal.pynone]
      = soapWriterWSE partnerNs ("accountId") [] PyVal.pynone
        ++ soapWSEList partnerNs ("accountId") [] [] := by
    simp only [soapWSEList]
  have hs3 : soapWSEList partnerNs ("accountId") [] ([] : List PyVal) = [] := by
    simp only [soapWSEList]
  have hs4 : soapWriterWSE partnerNs ("accountId") [] PyVal.pynone
      = [⟨partnerNs, ("accountId"), [(nilKey, trueChars)], []⟩] := by
    simp only [soapWriterWSE, xmlWriterWSEOnSoap]
    rfl
  have hsoap : soapWriterWSE partnerNs ("accountId") [] (PyVal.list [PyVal.pynone])
      = [⟨partnerNs, ("accountId"), [(nilKey, trueChars)], []⟩] := by
    rw [hs1, hs2, hs3, hs4]
    rfl
  refine ⟨hsoap, hx, ?_⟩
  rw [hsoap, hx]
  decide

/-- C8 (amended): for every element name and attribute set, the SOAP writer
maps a `None` value to exactly one empty element carrying `xsi:nil="true"`
in addition to the supplied attributes (rather than omitting the element);
non-`None` scalar values are emitted exactly as by the general writer; a
list value is emitted as repeating elements each written by the SOAP writer
itself, so `None` items inside a list also receive `xsi:nil`. -/
theorem c8_none_writes_nil_element (ns name : String)
    (attrs : List (AttrKey × List Char)) :
    soapWriterWSE ns name attrs PyVal.pynone
      = [⟨ns, name, dictSet nilKey trueChars attrs, []⟩]
    ∧ (∀ v, v ≠ PyVal.pynone → (∀ vs, v ≠ PyVal.list vs) →
        soapWriterWSE ns name attrs v = xmlWriterWSE ns name attrs v)
    ∧ (∀ vs, soapWriterWSE ns name attrs (PyVal.list vs)
        = soapWSEList ns name attrs vs) := by
  refine ⟨?_, ?_, ?_⟩
  · simp only [soapWriterWSE, xmlWriterWSEOnSoap]
    rfl
  · intro v hv hl
    cases v with
    | pynone => exact absurd rfl hv
    | str s =>
      simp only [soapWriterWSE, xmlWriterWSEOnSoap]
      rfl
    | int n =>
      simp only [soapWriterWSE, xmlWriterWSEOnSoap]
      rfl
    | list vs => exact absurd rfl (hl vs)
  · intro vs
    simp only [soapWriterWSE, xmlWriterWSEOnSoap]

/-- C8 witness at a concrete name and scalar value. -/
theorem c8_none_writes_nil_element_witness :
    soapWriterWSE partnerNs ("accountId") [] (PyVal.str [('x')])
      = xmlWriterWSE partnerNs ("accountId") [] (PyVal.str [('x')]) :=
  (c8_none_writes_nil_element partnerNs ("accountId") []).2.1 (PyVal.str [('x')])
    (fun h => PyVal.noConfusion h) (fun vs h => PyVal.noConfusion h)

/-! ### AuthInfo state machine (`_beatbox.py` lines 315-378)

`AuthInfo` stores `session_id`, `worker_server_url`, `is_sandbox`,
`_auth_request_body`, `failed_timestamp` (and, only ever assigned inside the
sandbox rewrite, `login_server_url`).  `reauth` first raises `RuntimeError`
when no login request body is stored, then applies the failed-login guard
`if self.failed_timestamp and time.time() < self.failed_timestamp <
self.safe_login_retry_delay`, then rewrites the login host for the sandbox
flag and opens a `SoapLoginConnection`. -/

/-- Stored login request (`LoginRequest(username, password)`); the object is
always truthy in Python, so only its presence matters to `reauth`. -/
structure LoginBody where
  username : List Char
  password : List Char
deriving DecidableEq, Repr

/-- Embeds the attribute state of an `AuthInfo` instance.
`login_server_url` is `none` when the attribute was never assigned (it is
absent from `__init__`; reading it then raises `AttributeError`). -/
structure AuthInfoSt where
  session_id : Option (List Char)
  worker_server_url : Option (List Char)
  is_sandbox : Option Bool
  auth_request_body : Option LoginBody
  failed_timestamp : Option Nat
  login_server_url : Option (List Char)
deriving DecidableEq, Repr

/-- Embeds `AuthInfo.__init__` (with `connection_factory` omitted: it is an
opaque callable). -/
def authInfoInit : AuthInfoSt :=
  { session_id := none, worker_server_url := none, is_sandbox := none,
    auth_request_body := none, failed_timestamp := none,
    login_server_url := none }

/-- Embeds `AuthInfo.useSession`. -/
def useSession (a : AuthInfoSt) (sid url : List Char) : AuthInfoSt :=
  { a with
    session_id := some sid
    worker_server_url := some url
    auth_request_body := none
    failed_timestamp := none }

/-- Embeds `AuthInfo.invalidate`. -/
def invalidate (a : AuthInfoSt) : AuthInfoSt :=
  { a with auth_request_body := none, session_id := none }

/-- Class constant `AuthInfo.safe_login_retry_delay`. -/
def safe_login_retry_delay : Nat := 600

def loginHostMark : List Char := ("https://login.salesforce.com/").toList

def testHostMark : List Char := ("https://test.salesforce.com/").toList

/-- Embeds the `re.sub` host rewrite of `AuthInfo.reauth`: `test`/`login`
between `https://` and `.salesforce.com/` is replaced according to the
sandbox flag.  The URLs the code builds contain that pattern exactly once, at
the start, which this model rewrites. -/
def sandboxRewrite (sb : Bool) (url : List Char) : List Char :=
  let target := if sb then testHostMark else loginHostMark
  if loginHostMark.isPrefixOf url then target ++ url.drop loginHostMark.length
  else if testHostMark.isPrefixOf url then target ++ url.drop testHostMark.length
  else url

/-- First observable action of a `reauth()` call. Only `transportPost` opens a
connection and sends a network request; the three error events fire before any
connection is created. -/
inductive ReauthEvent where
  | runtimeError
  | backoffError
  | attrMissing
  | transportPost (url : List Char)
deriving DecidableEq, Repr

/-- Python truthiness of the `failed_timestamp` float (`None` and `0.0` are
falsy). -/
def timeTruthy : Option Nat → Bool
  | none => false
  | some t => decide (0 < t)

/-- Embeds the guard
`self.failed_timestamp and time.time() < self.failed_timestamp <
self.safe_login_retry_delay` with `now = time.time()` (the chained comparison
is the conjunction of the two comparisons). -/
def reauthGuard (ft : Option Nat) (now : Nat) : Bool :=
  timeTruthy ft && decide (now < ft.getD 0)
    && decide (ft.getD 0 < safe_login_retry_delay)

/-- Embeds `AuthInfo.reauth` up to (and including) the creation of the login
connection and the `conn.post` network call; the returned state is the
instance state at that point (only the sandbox rewrite assigns an attribute
before the call). -/
def reauthStep (a : AuthInfoSt) (now : Nat) : ReauthEvent × AuthInfoSt :=
  if a.auth_request_body.isNone then (ReauthEvent.runtimeError, a)
  else if reauthGuard a.failed_timestamp now then (ReauthEvent.backoffError, a)
  else
    match a.login_server_url with
    | none => (ReauthEvent.attrMissing, a)
    | some url =>
      match a.is_sandbox with
      | none => (ReauthEvent.transportPost url, a)
      | some sb =>
        let u2 := sandboxRewrite sb url
        (ReauthEvent.transportPost u2, { a with login_server_url := some u2 })

/-- Result of the posted login request, as seen by `reauth`. -/
inductive LoginOutcome where
  | ok (sid url : List Char)
  | invalidLogin
  | otherError
deriving DecidableEq, Repr

/-- Embeds the tail of `AuthInfo.reauth` after `conn.post`: success runs
`useSession` on the returned ids; `SoapInvalidLogin` records
`failed_timestamp = time.time()` and re-raises; any other exception leaves the
state unchanged (the `finally` block only closes the connection). -/
def reauthFinish (a : AuthInfoSt) (now : Nat) : LoginOutcome → AuthInfoSt
  | .ok sid url => useSession a sid url
  | .invalidLogin => { a with failed_timestamp := some now }
  | .otherError => a

/-- C10: whenever no login request body is stored — initially, after
`useSession`, and after `invalidate()` — `reauth()` raises `RuntimeError`
immediately, before any connection is created, and leaves the whole state
(in particular `session_id`, `worker_server_url`, `failed_timestamp`)
unchanged; `useSession` and `invalidate` indeed clear the stored body, and the
initial state has none. -/
theorem c10_reauth_unauthenticated_raises (a : AuthInfoSt) (now : Nat)
    (h : a.auth_request_body = none) :
    reauthStep a now = (ReauthEvent.runtimeError, a)
    ∧ authInfoInit.auth_request_body = none
    ∧ (∀ b sid url, (useSession b sid url).auth_request_body = none)
    ∧ (∀ b, (invalidate b).auth_request_body = none) := by
  refine ⟨?_, rfl, fun b sid url => rfl, fun b => rfl⟩
  simp [reauthStep, h]

/-- C10 witness: the freshly constructed `AuthInfo` refuses `reauth`. -/
theorem c10_reauth_unauthenticated_raises_witness :
    reauthStep authInfoInit 0 = (ReauthEvent.runtimeError, authInfoInit) :=
  (c10_reauth_unauthenticated_raises authInfoInit 0 rfl).1

def c2LoginUrl : List Char :=
  ("https://login.salesforce.com/services/Soap/u/36.0").toList

/-- AuthInfo one second after a failed login at unix time 1700000000, with
stored credentials and the login URL attribute set. -/
def c2State : AuthInfoSt :=
  { session_id := none, worker_server_url := none, is_sandbox := none,
    auth_request_body := some ⟨("user").toList, ("pw").toList⟩,
    failed_timestamp := some 1700000000,
    login_server_url := some c2LoginUrl }

/-- C2 evaluated at the failing input: one second after an `InvalidLogin`
failure recorded at a realistic unix timestamp — far inside the claimed
600-second window — `reauth` proceeds straight to the network post instead of
failing immediately, because the guard compares
`now < failed_timestamp < 600`, which is false for every timestamp of at
least 600 seconds (second conjunct), rather than the intended
`now - failed_timestamp < 600`. -/
theorem c2_backoff_guard_never_fires :
    reauthStep c2State 1700000001
      = (ReauthEvent.transportPost c2LoginUrl, c2State)
    ∧ (∀ ft now, safe_login_retry_delay ≤ ft →
        reauthGuard (some ft) now = false) := by
  constructor
  · rfl
  · intro ft now h
    have h6 : (600 : Nat) ≤ ft := h
    simp only [reauthGuard, timeTruthy, safe_login_retry_delay,
      Option.getD_some, Bool.and_eq_false_iff, decide_eq_false_iff_not, not_lt]
    omega

/-- C2 witness: the guard is false at the boundary timestamp 600. -/
theorem c2_backoff_guard_never_fires_witness :
    reauthGuard (some 600) 0 = false :=
  c2_backoff_guard_never_fires.2 600 0 (by decide)

/-! ### BaseSoapConnection.post2r retry loop (`_beatbox.py` lines 424-437)

`post2r` rebuilds the envelope and calls `post` in a loop starting with
`retry = 1`; only `SoapInvalidSession` is caught, and only when `retry < 2`
and the auth object has a `reauth` method does it call `reauth()`, increment
`retry` and loop; otherwise the fault is re-raised.  All other outcomes
(success, `SoapInvalidLogin`, generic faults, transport errors) leave the
loop at once. -/

/-- Outcome of one `post(envelope)` call as seen by `post2r` (a raised
exception or the decoded response). -/
inductive SendOutcome where
  | ok (r : PostDecode)
  | invalidSession (code msg : List Char)
  | invalidLogin (code msg : List Char)
  | generic (code msg : List Char)
  | transportError

/-- Embeds the `while True` loop of `post2r`.  `outcomes n` is the result of
the (n+1)-th `post` (the mock transport); the triple returned is (final
outcome — returned value or propagated exception, number of posts sent,
number of `reauth()` calls).  `reauth()` is modelled as returning normally
(the claim's scenario); a raise inside `reauth` would propagate and is not a
retry either. -/
def post2rLoop (hasReauth : Bool) (outcomes : Nat → SendOutcome)
    (retry sendIdx nReauth : Nat) : SendOutcome × Nat × Nat :=
  match outcomes sendIdx with
  | SendOutcome.invalidSession code msg =>
    if h : retry < 2 ∧ hasReauth = true then
      post2rLoop hasReauth outcomes (retry + 1) (sendIdx + 1) (nReauth + 1)
    else (SendOutcome.invalidSession code msg, sendIdx + 1, nReauth)
  | o => (o, sendIdx + 1, nReauth)
termination_by 2 - retry
decreasing_by omega

/-- Embeds `BaseSoapConnection.post2r` (`retry` starts at 1; the envelope is
rebuilt from the same arguments before every send, so the retried request is
the identical logical request). -/
def post2r (hasReauth : Bool) (outcomes : Nat → SendOutcome) :
    SendOutcome × Nat × Nat :=
  post2rLoop hasReauth outcomes 1 0 0

/-- C3: when the first send raises `InvalidSession` and the auth object can
`reauth`, exactly one `reauth()` happens and the request is re-sent exactly
once, the second send's outcome being returned as is — so a successful second
send yields its decoded result, and a second `InvalidSession` is propagated
unmodified with no further retry; an `InvalidLogin` on the first send is
never retried (no reauth, single send). -/
theorem c3_invalid_session_retried_exactly_once (outcomes : Nat → SendOutcome)
    (code msg : List Char) :
    (outcomes 0 = SendOutcome.invalidSession code msg →
      post2r true outcomes = (outcomes 1, 2, 1))
    ∧ (outcomes 0 = SendOutcome.invalidLogin code msg →
      post2r true outcomes = (SendOutcome.invalidLogin code msg, 1, 0)) := by
  constructor
  · intro h
    have e1 : post2rLoop true outcomes 2 1 1 = (outcomes 1, 2, 1) := by
      rw [post2rLoop]
      rcases h1 : outcomes 1 with r | ⟨c2, m2⟩ | ⟨c2, m2⟩ | ⟨c2, m2⟩ | _ <;> rfl
    rw [post2r, post2rLoop, h]
    exact e1
  · intro h
    rw [post2r, post2rLoop, h]

/-- C3 witness: a mock transport giving `InvalidSession` then a decoded
result. -/
theorem c3_invalid_session_retried_exactly_once_witness :
    post2r true
      (fun n => if n = 0
        then SendOutcome.invalidSession ("INVALID_SESSION_ID").toList []
        else SendOutcome.ok (PostDecode.nodes []))
      = (SendOutcome.ok (PostDecode.nodes []), 2, 1) :=
  (c3_invalid_session_retried_exactly_once
    (fun n => if n = 0
      then SendOutcome.invalidSession ("INVALID_SESSION_ID").toList []
      else SendOutcome.ok (PostDecode.nodes []))
    (("INVALID_SESSION_ID").toList) []).1 rfl

/-! ### Client.logout (`_beatbox.py` lines 87-92)

`Client.logout` is
`return LogoutRequest(self.__serverUrl, self.sessionId, self.headers).post(self.__conn, True)`:
it builds and posts a logout envelope and returns the decoded result.  The
method body contains no assignment: neither `self.sessionId` nor the
connection is cleared, on success or on failure, and `AuthInfo.invalidate`
(which would clear the session and credential reference) is never called. -/

/-- Local session state of a `Client` instance relevant to `logout`. -/
structure ClientSt where
  sessionId : Option (List Char)
  serverUrl : List Char
  connOpen : Bool
deriving DecidableEq, Repr

/-- The logout envelope handed to `post` (an `AuthenticatedRequest` named
`logout` carrying the current session id, posted with
`alwaysReturnList=True`). -/
structure LogoutSend where
  url : List Char
  sessionId : Option (List Char)
  alwaysReturnList : Bool
deriving DecidableEq, Repr

/-- Embeds `Client.logout`: the request that is sent, and the client state
after the call — which is the unchanged input state, whether the network call
succeeds or raises. -/
def clientLogout (s : ClientSt) : LogoutSend × ClientSt :=
  ({ url := s.serverUrl, sessionId := s.sessionId, alwaysReturnList := true }, s)

/-- C5 refuted on the code: `logout()` posts the logout envelope but leaves
the entire local session state untouched — the stored `sessionId` survives
the call (it is not cleared, against the claim), while `AuthInfo.invalidate`
(the only clearing routine, shown in the last conjunct) is never invoked by
`logout`. -/
theorem c5_logout_does_not_clear_session (s : ClientSt) :
    (clientLogout s).2 = s
    ∧ (clientLogout s).2.sessionId = s.sessionId
    ∧ (clientLogout
        { sessionId := some (("SID").toList)
          serverUrl := ("https://na1.salesforce.com/x").toList
          connOpen := true }).2.sessionId = some (("SID").toList)
    ∧ (∀ a, (invalidate a).session_id = none) := by
  exact ⟨rfl, rfl, rfl, fun a => rfl⟩

/-! ### xmltramp.quote text escaping (C6)

`quote(x, elt=True)` emits a CDATA section when `elt and '<' in x and
len(x) > 24 and x.find(']]>') == -1`; otherwise it entity-escapes by the
chain `x.replace('&','&amp;').replace('<','&lt;').replace(']]>',']]&gt;')`,
and for attribute values (`elt=False`) additionally `.replace('"','&quot;')`. -/

/-- Embeds Python substring containment `pat in x` (equivalently
`x.find(pat) != -1`). -/
def pyContains (pat : List Char) : List Char → Bool
  | [] => pat.isEmpty
  | c :: t => pat.isPrefixOf (c :: t) || pyContains pat t

/-- Embeds Python `x.replace(pat, rep)`: leftmost non-overlapping occurrences
of `pat` are replaced by `rep` in a single left-to-right scan.  (Python treats
an empty `pat` specially; every pattern used by `quote` is non-empty, and the
model copies the string unchanged for an empty one.) -/
def pyReplace (pat rep : List Char) : List Char → List Char
  | [] => []
  | c :: t =>
    if pat.isEmpty = false ∧ pat.isPrefixOf (c :: t) = true then
      rep ++ pyReplace pat rep (t.drop (pat.length - 1))
    else c :: pyReplace pat rep t
termination_by s => s.length
decreasing_by all_goals (simp only [List.length_drop, List.length_cons]; omega)

def cdataEndSeq : List Char := (']' :: ']' :: '>' :: [])

def cdataOpenSeq : List Char := ("<![CDATA[").toList

def ampEnt : List Char := ("&amp;").toList

def ltEnt : List Char := ("&lt;").toList

def cdataEndEsc : List Char := ("]]&gt;").toList

def quotEnt : List Char := ("&quot;").toList

/-- Embeds `xmltramp.quote`. -/
def quote (x : List Char) (elt : Bool) : List Char :=
  if elt = true ∧ pyContains ['<'] x = true ∧ 24 < x.length
      ∧ pyContains cdataEndSeq x = false then
    cdataOpenSeq ++ x ++ cdataEndSeq
  else
    let x1 := pyReplace ['&'] ampEnt x
    let x2 := pyReplace ['<'] ltEnt x1
    let x3 := pyReplace cdataEndSeq cdataEndEsc x2
    if elt = false then pyReplace ['"'] quotEnt x3 else x3

/-- Per-character effect of the first two replaces of the chain
(`&` to `&amp;`, `<` to `&lt;`, all else unchanged). -/
def escBase (c : Char) : List Char :=
  if c = '&' then ampEnt else if c = '<' then ltEnt else [c]

/-- `escBase` mapped over a string. -/
def escBaseF : List Char → List Char
  | [] => []
  | c :: t => escBase c ++ escBaseF t

/-- Character map with one special character (the effect of a single-character
`replace`). -/
def mapEnt (a : Char) (rep : List Char) : List Char → List Char
  | [] => []
  | c :: t => (if c = a then rep else [c]) ++ mapEnt a rep t

/-- Closed form of the full element-content escape chain: leftmost scan
replacing `]]>`, `&`, `<`. -/
def escapeChars : List Char → List Char
  | ']' :: ']' :: '>' :: t => cdataEndEsc ++ escapeChars t
  | '&' :: t => ampEnt ++ escapeChars t
  | '<' :: t => ltEnt ++ escapeChars t
  | c :: t => c :: escapeChars t
  | [] => []

/-- Closed form of the attribute-value escape chain (additionally `"` to
`&quot;`). -/
def attrEscapeChars : List Char → List Char
  | ']' :: ']' :: '>' :: t => cdataEndEsc ++ attrEscapeChars t
  | '&' :: t => ampEnt ++ attrEscapeChars t
  | '<' :: t => ltEnt ++ attrEscapeChars t
  | '"' :: t => quotEnt ++ attrEscapeChars t
  | c :: t => c :: attrEscapeChars t
  | [] => []

/-- Modelled from the spec: the entity decoding an XML parser (the external
`xml.sax`, used by `xmltramp.parse`) applies to escaped text — the predefined
references `&amp;` `&lt;` `&gt;` `&quot;` become their characters, everything
else is read verbatim. -/
def xmlDecode : List Char → List Char
  | '&' :: 'a' :: 'm' :: 'p' :: ';' :: t => '&' :: xmlDecode t
  | '&' :: 'l' :: 't' :: ';' :: t => '<' :: xmlDecode t
  | '&' :: 'g' :: 't' :: ';' :: t => '>' :: xmlDecode t
  | '&' :: 'q' :: 'u' :: 'o' :: 't' :: ';' :: t => '"' :: xmlDecode t
  | c :: t => c :: xmlDecode t
  | [] => []

/-- Modelled from the spec: a CDATA section's content is read verbatim up to
the first `]]>` terminator. -/
def cdataTake : List Char → List Char
  | ']' :: ']' :: '>' :: _ => []
  | c :: t => c :: cdataTake t
  | [] => []

/-- Modelled from the spec: decoding of serialized element content — a string
opening a CDATA section is read verbatim to the terminator, anything else is
entity-decoded. -/
def decodeContent (s : List Char) : List Char :=
  if cdataOpenSeq.isPrefixOf s then cdataTake (s.drop cdataOpenSeq.length)
  else xmlDecode s

/-! Step lemmas for `pyReplace`. -/

theorem pyReplace_nil (pat rep : List Char) : pyReplace pat rep [] = [] := by
  rw [pyReplace]

theorem pyReplace_cons_pos (pat rep : List Char) (c : Char) (t : List Char)
    (h1 : pat.isEmpty = false) (h2 : pat.isPrefixOf (c :: t) = true) :
    pyReplace pat rep (c :: t)
      = rep ++ pyReplace pat rep (t.drop (pat.length - 1)) := by
  rw [pyReplace, if_pos ⟨h1, h2⟩]

theorem pyReplace_cons_neg (pat rep : List Char) (c : Char) (t : List Char)
    (h : pat.isPrefixOf (c :: t) = false) :
    pyReplace pat rep (c :: t) = c :: pyReplace pat rep t := by
  rw [pyReplace, if_neg]
  intro hc
  rw [hc.2] at h
  exact absurd h (by simp)

theorem isPrefixOf_cons_eq (a c : Char) (pr t : List Char) :
    (a :: pr).isPrefixOf (c :: t) = (a == c && pr.isPrefixOf t) := rfl

theorem isPrefixOf_cons_head_ne (a c : Char) (pr t : List Char) (h : a ≠ c) :
    (a :: pr).isPrefixOf (c :: t) = false := by
  rw [isPrefixOf_cons_eq]
  simp [h]

/-- A scan segment free of the pattern's head character is copied verbatim. -/
theorem pyReplace_skip (pat rep : List Char) (a : Char) (pr : List Char)
    (hp : pat = a :: pr) (u v : List Char) (h : ∀ ch ∈ u, ch ≠ a) :
    pyReplace pat rep (u ++ v) = u ++ pyReplace pat rep v := by
  induction u with
  | nil => simp
  | cons b u2 ih =>
    have hb : a ≠ b := fun he => (h b (by simp)) he.symm
    have hpre : pat.isPrefixOf (b :: (u2 ++ v)) = false := by
      rw [hp]
      exact isPrefixOf_cons_head_ne a b pr _ hb
    rw [List.cons_append, pyReplace_cons_neg _ _ _ _ hpre,
      ih (fun ch hc => h ch (by simp [hc]))]
    simp

/-- A one-character `replace` is the character map `mapEnt`. -/
theorem pyReplace_single (a : Char) (rep s : List Char) :
    pyReplace [a] rep s = mapEnt a rep s := by
  induction s with
  | nil => rw [pyReplace_nil]; rfl
  | cons c t ih =>
    by_cases hc : c = a
    · subst hc
      have hpre : [c].isPrefixOf (c :: t) = true := by
        rw [isPrefixOf_cons_eq]
        simp
      rw [pyReplace_cons_pos _ _ _ _ (by rfl) hpre]
      simp [mapEnt, ih]
    · have hpre : [a].isPrefixOf (c :: t) = false :=
        isPrefixOf_cons_head_ne a c [] t (fun he => hc he.symm)
      rw [pyReplace_cons_neg _ _ _ _ hpre, ih]
      simp [mapEnt, hc]

/-- The first two replaces of the chain compose to the character map
`escBaseF` (`&amp;` contains no `<`, so the second replace passes the
injected entities through). -/
theorem chain_amp_lt (x : List Char) :
    pyReplace ['<'] ltEnt (mapEnt '&' ampEnt x) = escBaseF x := by
  induction x with
  | nil =>
    simp [mapEnt, escBaseF, pyReplace_nil]
  | cons c t ih =>
    by_cases hamp : c = '&'
    · subst hamp
      have hm : mapEnt '&' ampEnt ('&' :: t) = ampEnt ++ mapEnt '&' ampEnt t := by
        simp [mapEnt]
      rw [hm, pyReplace_skip ['<'] ltEnt '<' [] rfl ampEnt _ (by decide), ih]
      simp [escBaseF, escBase]
    · have hm : mapEnt '&' ampEnt (c :: t) = c :: mapEnt '&' ampEnt t := by
        simp [mapEnt, hamp]
      rw [hm]
      by_cases hlt : c = '<'
      · subst hlt
        have hpre : ['<'].isPrefixOf ('<' :: mapEnt '&' ampEnt t) = true := by
          rw [isPrefixOf_cons_eq]
          simp
        rw [pyReplace_cons_pos _ _ _ _ (by rfl) hpre]
        simp only [List.length_cons, List.length_nil, Nat.sub_self, List.drop_zero]
        rw [ih]
        simp [escBaseF, escBase, hamp]
      · have hpre : ['<'].isPrefixOf (c :: mapEnt '&' ampEnt t) = false :=
          isPrefixOf_cons_head_ne _ c [] _ (fun he => hlt he.symm)
        rw [pyReplace_cons_neg _ _ _ _ hpre, ih]
        simp [escBaseF, escBase, hamp, hlt]

/-! Unfolding equations for the scan functions. -/

theorem escapeChars_cd (t : List Char) :
    escapeChars (']' :: ']' :: '>' :: t) = cdataEndEsc ++ escapeChars t := rfl

theorem escapeChars_amp (t : List Char) :
    escapeChars ('&' :: t) = ampEnt ++ escapeChars t := rfl

theorem escapeChars_lt (t : List Char) :
    escapeChars ('<' :: t) = ltEnt ++ escapeChars t := rfl

theorem escapeChars_cons_default (c : Char) (t : List Char)
    (h1 : c ≠ '&') (h2 : c ≠ '<')
    (h3 : ∀ t2, c :: t ≠ ']' :: ']' :: '>' :: t2) :
    escapeChars (c :: t) = c :: escapeChars t := by
  rw [escapeChars.eq_def]
  split <;> simp_all

theorem attrEscapeChars_cd (t : List Char) :
    attrEscapeChars (']' :: ']' :: '>' :: t) = cdataEndEsc ++ attrEscapeChars t := rfl

theorem attrEscapeChars_amp (t : List Char) :
    attrEscapeChars ('&' :: t) = ampEnt ++ attrEscapeChars t := rfl

theorem attrEscapeChars_lt (t : List Char) :
    attrEscapeChars ('<' :: t) = ltEnt ++ attrEscapeChars t := rfl

theorem attrEscapeChars_quot (t : List Char) :
    attrEscapeChars ('"' :: t) = quotEnt ++ attrEscapeChars t := rfl

theorem attrEscapeChars_cons_default (c : Char) (t : List Char)
    (h1 : c ≠ '&') (h2 : c ≠ '<') (h4 : c ≠ '"')
    (h3 : ∀ t2, c :: t ≠ ']' :: ']' :: '>' :: t2) :
    attrEscapeChars (c :: t) = c :: attrEscapeChars t := by
  rw [attrEscapeChars.eq_def]
  split <;> simp_all

theorem xmlDecode_amp (r : List Char) :
    xmlDecode (ampEnt ++ r) = '&' :: xmlDecode r := rfl

theorem xmlDecode_lt (r : List Char) :
    xmlDecode (ltEnt ++ r) = '<' :: xmlDecode r := rfl

theorem xmlDecode_cdEsc (r : List Char) :
    xmlDecode (cdataEndEsc ++ r) = ']' :: ']' :: '>' :: xmlDecode r := rfl

theorem xmlDecode_quot (r : List Char) :
    xmlDecode (quotEnt ++ r) = '"' :: xmlDecode r := rfl

set_option maxHeartbeats 1000000 in
theorem xmlDecode_cons_default (c : Char) (t : List Char) (h : c ≠ '&') :
    xmlDecode (c :: t) = c :: xmlDecode t := by
  rw [xmlDecode.eq_def]
  split <;> simp_all

theorem cdataTake_end (r : List Char) :
    cdataTake (']' :: ']' :: '>' :: r) = [] := rfl

theorem cdataTake_cons_default (c : Char) (t : List Char)
    (h3 : ∀ t2, c :: t ≠ ']' :: ']' :: '>' :: t2) :
    cdataTake (c :: t) = c :: cdataTake t := by
  rw [cdataTake.eq_def]
  split <;> simp_all

theorem pyContains_cons (pat : List Char) (c : Char) (t : List Char) :
    pyContains pat (c :: t) = (pat.isPrefixOf (c :: t) || pyContains pat t) := rfl

/-! Head-shape facts about the escaped forms. -/

/-- When `escBaseF u` starts with a character other than `&`, that character
was the head of `u` and the tail is again an `escBaseF` image. -/
theorem escBaseF_cons_head (u : List Char) (ch : Char) (r : List Char)
    (h : escBaseF u = ch :: r) (hch : ch ≠ '&') :
    ∃ u2, u = ch :: u2 ∧ r = escBaseF u2 := by
  cases u with
  | nil => simp [escBaseF] at h
  | cons d u2 =>
    by_cases hd : d = '&'
    · subst hd
      rw [show escBaseF ('&' :: u2) = '&' :: ('a' :: 'm' :: 'p' :: ';' :: escBaseF u2) from rfl] at h
      exact absurd (List.cons.injEq .. ▸ h).1.symm hch
    · by_cases hd2 : d = '<'
      · subst hd2
        rw [show escBaseF ('<' :: u2) = '&' :: ('l' :: 't' :: ';' :: escBaseF u2) from rfl] at h
        exact absurd (List.cons.injEq .. ▸ h).1.symm hch
      · have hb : escBase d = [d] := by simp [escBase, hd, hd2]
        have h2 : d :: escBaseF u2 = ch :: r := by
          rw [show escBaseF (d :: u2) = escBase d ++ escBaseF u2 from rfl, hb] at h
          simpa using h
        obtain ⟨he1, he2⟩ := (List.cons.injEq .. ▸ h2)
        exact ⟨u2, by rw [he1], he2.symm⟩

/-- When `c :: t` is not of the `]]>` shape (and `c` is an ordinary
character), neither is `c :: escBaseF t`. -/
theorem cdata_shape_escBaseF (c : Char) (t : List Char)
    (hb : escBase c = [c])
    (h : ∀ t2, c :: t ≠ ']' :: ']' :: '>' :: t2) :
    ∀ s2, c :: escBaseF t ≠ ']' :: ']' :: '>' :: s2 := by
  intro s2 heq
  obtain ⟨hc, h2⟩ := (List.cons.injEq .. ▸ heq)
  obtain ⟨u2, hu2, hr⟩ := escBaseF_cons_head t ']' ('>' :: s2) h2 (by decide)
  obtain ⟨u3, hu3, -⟩ := escBaseF_cons_head u2 '>' s2 hr.symm (by decide)
  exact h u3 (by rw [hc, hu2, hu3])

theorem nil_isPrefixOf (t : List Char) : ([] : List Char).isPrefixOf t = true := by
  cases t <;> rfl

/-- Prefix test against the three-character pattern, from the shape. -/
theorem cdata_isPrefixOf_false (c : Char) (s : List Char)
    (h : ∀ s2, c :: s ≠ ']' :: ']' :: '>' :: s2) :
    cdataEndSeq.isPrefixOf (c :: s) = false := by
  rcases s with _ | ⟨d, s2⟩
  · simp [cdataEndSeq, List.isPrefixOf]
  · rcases s2 with _ | ⟨e, s3⟩
    · simp [cdataEndSeq, List.isPrefixOf]
    · have hne : ¬(']' = c ∧ ']' = d ∧ '>' = e) := by
        rintro ⟨rfl, rfl, rfl⟩
        exact h s3 rfl
      simp only [cdataEndSeq, isPrefixOf_cons_eq, nil_isPrefixOf, Bool.and_true]
      simp only [Bool.and_eq_false_iff, beq_eq_false_iff_ne, ne_eq]
      tauto

/-- The third replace of the chain turns the character-mapped string into the
closed-form scan `escapeChars` (length-bounded induction). -/
theorem escape_chain_aux :
    ∀ (n : Nat) (x : List Char), x.length ≤ n →
      pyReplace cdataEndSeq cdataEndEsc (escBaseF x) = escapeChars x := by
  intro n
  induction n with
  | zero =>
    intro x hx
    have hx0 : x = [] := List.length_eq_zero.mp (Nat.le_zero.mp hx)
    subst hx0
    rw [show escBaseF [] = [] from rfl, pyReplace_nil]
    rfl
  | succ n ih =>
    intro x hx
    rcases x with _ | ⟨c, t⟩
    · rw [show escBaseF [] = [] from rfl, pyReplace_nil]
      rfl
    · have ht : t.length ≤ n := by
        simp only [List.length_cons] at hx
        omega
      by_cases hamp : c = '&'
      · subst hamp
        rw [show escBaseF ('&' :: t) = ampEnt ++ escBaseF t from rfl,
          pyReplace_skip cdataEndSeq cdataEndEsc ']' (']' :: '>' :: []) rfl ampEnt _ (by decide),
          ih t ht, escapeChars_amp]
      · by_cases hlt : c = '<'
        · subst hlt
          rw [show escBaseF ('<' :: t) = ltEnt ++ escBaseF t from rfl,
            pyReplace_skip cdataEndSeq cdataEndEsc ']' (']' :: '>' :: []) rfl ltEnt _ (by decide),
            ih t ht, escapeChars_lt]
        · have hb : escBase c = [c] := by simp [escBase, hamp, hlt]
          have he : escBaseF (c :: t) = c :: escBaseF t := by
            rw [show escBaseF (c :: t) = escBase c ++ escBaseF t from rfl, hb]
            rfl
          by_cases hsh : c = ']' ∧ ∃ t2, t = ']' :: '>' :: t2
          · obtain ⟨rfl, t2, rfl⟩ := hsh
            have he2 : escBaseF (']' :: ']' :: '>' :: t2)
                = ']' :: ']' :: '>' :: escBaseF t2 := rfl
            rw [he2]
            have hpre : cdataEndSeq.isPrefixOf (']' :: ']' :: '>' :: escBaseF t2)
                = true := by
              simp [cdataEndSeq, isPrefixOf_cons_eq, nil_isPrefixOf]
            rw [pyReplace_cons_pos _ _ _ _ (by rfl) hpre]
            have hdrop : (']' :: '>' :: escBaseF t2).drop (cdataEndSeq.length - 1)
                = escBaseF t2 := rfl
            rw [hdrop]
            have ht2 : t2.length ≤ n := by
              simp only [List.length_cons] at hx
              omega
            rw [ih t2 ht2, escapeChars_cd]
          · have h3 : ∀ t2, c :: t ≠ ']' :: ']' :: '>' :: t2 := by
              intro t2 heq
              obtain ⟨hc1, hc2⟩ := List.cons.injEq .. ▸ heq
              exact hsh ⟨hc1, t2, hc2⟩
            have hnp : cdataEndSeq.isPrefixOf (c :: escBaseF t) = false :=
              cdata_isPrefixOf_false c (escBaseF t) (cdata_shape_escBaseF c t hb h3)
            rw [he, pyReplace_cons_neg _ _ _ _ hnp, ih t ht,
              escapeChars_cons_default c t hamp hlt h3]

theorem escape_chain (x : List Char) :
    pyReplace cdataEndSeq cdataEndEsc (escBaseF x) = escapeChars x :=
  escape_chain_aux x.length x le_rfl

/-- For element content that misses the CDATA conditions, `quote` is the
closed-form escape scan. -/
theorem quote_elt_escaped (x : List Char)
    (h : ¬(pyContains ['<'] x = true ∧ 24 < x.length
        ∧ pyContains cdataEndSeq x = false)) :
    quote x true = escapeChars x := by
  rw [quote, if_neg (by simpa using h)]
  show pyReplace cdataEndSeq cdataEndEsc
      (pyReplace ['<'] ltEnt (pyReplace ['&'] ampEnt x)) = _
  rw [pyReplace_single '&' ampEnt x, chain_amp_lt x, escape_chain x]

theorem mapEnt_append (a : Char) (rep u v : List Char) :
    mapEnt a rep (u ++ v) = mapEnt a rep u ++ mapEnt a rep v := by
  induction u with
  | nil => rfl
  | cons c t ih => simp [mapEnt, ih]

/-- The attribute-only fourth replace turns the element scan into the
attribute scan (none of the injected entities contains a quote). -/
theorem quotmap_escape_aux :
    ∀ (n : Nat) (x : List Char), x.length ≤ n →
      mapEnt '"' quotEnt (escapeChars x) = attrEscapeChars x := by
  intro n
  induction n with
  | zero =>
    intro x hx
    have hx0 : x = [] := List.length_eq_zero.mp (Nat.le_zero.mp hx)
    subst hx0
    rfl
  | succ n ih =>
    intro x hx
    rcases x with _ | ⟨c, t⟩
    · rfl
    · have ht : t.length ≤ n := by
        simp only [List.length_cons] at hx
        omega
      by_cases hamp : c = '&'
      · subst hamp
        rw [escapeChars_amp, mapEnt_append,
          show mapEnt '"' quotEnt ampEnt = ampEnt from rfl, ih t ht,
          attrEscapeChars_amp]
      · by_cases hlt : c = '<'
        · subst hlt
          rw [escapeChars_lt, mapEnt_append,
            show mapEnt '"' quotEnt ltEnt = ltEnt from rfl, ih t ht,
            attrEscapeChars_lt]
        · by_cases hquot : c = '"'
          · subst hquot
            have h3 : ∀ t2, '"' :: t ≠ ']' :: ']' :: '>' :: t2 := by
              intro t2 heq
              obtain ⟨hc1, -⟩ := List.cons.injEq .. ▸ heq
              exact absurd hc1 (by decide)
            rw [escapeChars_cons_default _ t (by decide) (by decide) h3,
              show mapEnt '"' quotEnt ('"' :: escapeChars t)
                = quotEnt ++ mapEnt '"' quotEnt (escapeChars t) from by simp [mapEnt],
              ih t ht, attrEscapeChars_quot]
          · by_cases hsh : c = ']' ∧ ∃ t2, t = ']' :: '>' :: t2
            · obtain ⟨rfl, t2, rfl⟩ := hsh
              have ht2 : t2.length ≤ n := by
                simp only [List.length_cons] at hx
                omega
              rw [escapeChars_cd, mapEnt_append,
                show mapEnt '"' quotEnt cdataEndEsc = cdataEndEsc from rfl,
                ih t2 ht2, attrEscapeChars_cd]
            · have h3 : ∀ t2, c :: t ≠ ']' :: ']' :: '>' :: t2 := by
                intro t2 heq
                obtain ⟨hc1, hc2⟩ := List.cons.injEq .. ▸ heq
                exact hsh ⟨hc1, t2, hc2⟩
              rw [escapeChars_cons_default c t hamp hlt h3,
                show mapEnt '"' quotEnt (c :: escapeChars t)
                  = (if c = '"' then quotEnt else [c]) ++ mapEnt '"' quotEnt (escapeChars t)
                  from rfl, if_neg hquot, ih t ht,
                attrEscapeChars_cons_default c t hamp hlt hquot h3]
              rfl

/-- For attribute values, `quote` is the closed-form attribute scan. -/
theorem quote_attr_escaped (x : List Char) :
    quote x false = attrEscapeChars x := by
  rw [quote, if_neg (by simp)]
  show pyReplace ['"'] quotEnt (pyReplace cdataEndSeq cdataEndEsc
      (pyReplace ['<'] ltEnt (pyReplace ['&'] ampEnt x))) = _
  rw [pyReplace_single '&' ampEnt x, chain_amp_lt x, escape_chain x,
    pyReplace_single '"' quotEnt (escapeChars x),
    quotmap_escape_aux x.length x le_rfl]

/-- Entity decoding inverts the element-content escape scan. -/
theorem decode_escape_aux :
    ∀ (n : Nat) (x : List Char), x.length ≤ n →
      xmlDecode (escapeChars x) = x := by
  intro n
  induction n with
  | zero =>
    intro x hx
    have hx0 : x = [] := List.length_eq_zero.mp (Nat.le_zero.mp hx)
    subst hx0
    rfl
  | succ n ih =>
    intro x hx
    rcases x with _ | ⟨c, t⟩
    · rfl
    · have ht : t.length ≤ n := by
        simp only [List.length_cons] at hx
        omega
      by_cases hamp : c = '&'
      · subst hamp
        rw [escapeChars_amp, xmlDecode_amp, ih t ht]
      · by_cases hlt : c = '<'
        · subst hlt
          rw [escapeChars_lt, xmlDecode_lt, ih t ht]
        · by_cases hsh : c = ']' ∧ ∃ t2, t = ']' :: '>' :: t2
          · obtain ⟨rfl, t2, rfl⟩ := hsh
            have ht2 : t2.length ≤ n := by
              simp only [List.length_cons] at hx
              omega
            rw [escapeChars_cd, xmlDecode_cdEsc, ih t2 ht2]
          · have h3 : ∀ t2, c :: t ≠ ']' :: ']' :: '>' :: t2 := by
              intro t2 heq
              obtain ⟨hc1, hc2⟩ := List.cons.injEq .. ▸ heq
              exact hsh ⟨hc1, t2, hc2⟩
            rw [escapeChars_cons_default c t hamp hlt h3,
              xmlDecode_cons_default c _ hamp, ih t ht]

/-- Entity decoding inverts the attribute-value escape scan. -/
theorem decode_attr_escape_aux :
    ∀ (n : Nat) (x : List Char), x.length ≤ n →
      xmlDecode (attrEscapeChars x) = x := by
  intro n
  induction n with
  | zero =>
    intro x hx
    have hx0 : x = [] := List.length_eq_zero.mp (Nat.le_zero.mp hx)
    subst hx0
    rfl
  | succ n ih =>
    intro x hx
    rcases x with _ | ⟨c, t⟩
    · rfl
    · have ht : t.length ≤ n := by
        simp only [List.length_cons] at hx
        omega
      by_cases hamp : c = '&'
      · subst hamp
        rw [attrEscapeChars_amp, xmlDecode_amp, ih t ht]
      · by_cases hlt : c = '<'
        · subst hlt
          rw [attrEscapeChars_lt, xmlDecode_lt, ih t ht]
        · by_cases hquot : c = '"'
          · subst hquot
            rw [attrEscapeChars_quot, xmlDecode_quot, ih t ht]
          · by_cases hsh : c = ']' ∧ ∃ t2, t = ']' :: '>' :: t2
            · obtain ⟨rfl, t2, rfl⟩ := hsh
              have ht2 : t2.length ≤ n := by
                simp only [List.length_cons] at hx
                omega
              rw [attrEscapeChars_cd, xmlDecode_cdEsc, ih t2 ht2]
            · have h3 : ∀ t2, c :: t ≠ ']' :: ']' :: '>' :: t2 := by
                intro t2 heq
                obtain ⟨hc1, hc2⟩ := List.cons.injEq .. ▸ heq
                exact hsh ⟨hc1, t2, hc2⟩
              rw [attrEscapeChars_cons_default c t hamp hlt hquot h3,
                xmlDecode_cons_default c _ hamp, ih t ht]

/-! CDATA-branch lemmas. -/

theorem isPrefixOf_self_append (u v : List Char) : u.isPrefixOf (u ++ v) = true := by
  induction u with
  | nil => exact nil_isPrefixOf v
  | cons c t ih =>
    rw [List.cons_append, isPrefixOf_cons_eq, ih]
    simp

/-- When the pattern is not a prefix of `c :: t`, appending the terminator
cannot create one at this position. -/
theorem cdata_append_shape (c : Char) (t : List Char)
    (h : cdataEndSeq.isPrefixOf (c :: t) = false) :
    ∀ s2, c :: (t ++ cdataEndSeq) ≠ ']' :: ']' :: '>' :: s2 := by
  intro s2 heq
  rcases t with _ | ⟨d, t2⟩
  · obtain ⟨h1, h2⟩ := List.cons.injEq .. ▸ heq
    obtain ⟨h3, h4⟩ := List.cons.injEq .. ▸ h2
    obtain ⟨h5, -⟩ := List.cons.injEq .. ▸ h4
    exact absurd h5 (by decide)
  · rcases t2 with _ | ⟨e, t3⟩
    · obtain ⟨h1, h2⟩ := List.cons.injEq .. ▸ heq
      obtain ⟨h3, h4⟩ := List.cons.injEq .. ▸ h2
      obtain ⟨h5, -⟩ := List.cons.injEq .. ▸ h4
      exact absurd h5 (by decide)
    · obtain ⟨h1, h2⟩ := List.cons.injEq .. ▸ heq
      obtain ⟨h3, h4⟩ := List.cons.injEq .. ▸ h2
      obtain ⟨h5, -⟩ := List.cons.injEq .. ▸ h4
      subst h1
      subst h3
      subst h5
      have htrue : cdataEndSeq.isPrefixOf (']' :: ']' :: '>' :: t3) = true := by
        simp [cdataEndSeq, isPrefixOf_cons_eq, nil_isPrefixOf]
      rw [htrue] at h
      exact absurd h (by simp)

/-- Reading a CDATA body that contains no terminator consumes exactly the
body. -/
theorem cdataTake_append (x : List Char)
    (h : pyContains cdataEndSeq x = false) :
    cdataTake (x ++ cdataEndSeq) = x := by
  induction x with
  | nil => rfl
  | cons c t ih =>
    rw [pyContains_cons] at h
    have h1 : cdataEndSeq.isPrefixOf (c :: t) = false := by
      rcases Bool.or_eq_false_iff.mp h with ⟨ha, -⟩
      exact ha
    have h2 : pyContains cdataEndSeq t = false := by
      rcases Bool.or_eq_false_iff.mp h with ⟨-, hb⟩
      exact hb
    rw [List.cons_append,
      cdataTake_cons_default c _ (cdata_append_shape c t h1), ih h2]

/-- Under the CDATA conditions, `quote` emits a CDATA section. -/
theorem quote_elt_cdata (x : List Char)
    (h1 : pyContains ['<'] x = true) (h2 : 24 < x.length)
    (h3 : pyContains cdataEndSeq x = false) :
    quote x true = cdataOpenSeq ++ x ++ cdataEndSeq := by
  rw [quote, if_pos ⟨rfl, h1, h2, h3⟩]

/-- The modelled parser recovers the body of an emitted CDATA section. -/
theorem decode_cdata (x : List Char)
    (h : pyContains cdataEndSeq x = false) :
    decodeContent (cdataOpenSeq ++ x ++ cdataEndSeq) = x := by
  rw [decodeContent, List.append_assoc,
    if_pos (isPrefixOf_self_append cdataOpenSeq (x ++ cdataEndSeq)),
    List.drop_left, cdataTake_append x h]

/-- C6: serializing element text with `quote` and decoding gives back the
original string.  When the text contains `<`, is longer than 24 characters
and has no `]]>`, the serialized form is a CDATA section and the CDATA
reader returns the original; otherwise `&` and `<` are entity-escaped and
every `]]>` becomes `]]&gt;` (the closed scan `escapeChars`), and entity
decoding returns the original.  Attribute values additionally escape `"`
(the scan `attrEscapeChars`) and also decode back to the original. -/
theorem c6_quote_roundtrip (x : List Char) :
    (pyContains ['<'] x = true → 24 < x.length →
      pyContains cdataEndSeq x = false →
      quote x true = cdataOpenSeq ++ x ++ cdataEndSeq
      ∧ decodeContent (quote x true) = x)
    ∧ (¬(pyContains ['<'] x = true ∧ 24 < x.length
        ∧ pyContains cdataEndSeq x = false) →
      quote x true = escapeChars x ∧ xmlDecode (quote x true) = x)
    ∧ (quote x false = attrEscapeChars x ∧ xmlDecode (quote x false) = x) := by
  refine ⟨fun h1 h2 h3 => ⟨quote_elt_cdata x h1 h2 h3, ?_⟩,
    fun h => ⟨quote_elt_escaped x h, ?_⟩,
    ⟨quote_attr_escaped x, ?_⟩⟩
  · rw [quote_elt_cdata x h1 h2 h3, decode_cdata x h3]
  · rw [quote_elt_escaped x h, decode_escape_aux x.length x le_rfl]
  · rw [quote_attr_escaped x, decode_attr_escape_aux x.length x le_rfl]

def c6CdataSample : List Char :=
  ("a b c d e f g h i j k <b> x").toList

def c6EscSample : List Char :=
  ("a<b & c ]]> d").toList

/-- C6 witness: concrete round trips through both branches and the attribute
path. -/
theorem c6_quote_roundtrip_witness :
    decodeContent (quote c6CdataSample true) = c6CdataSample
    ∧ xmlDecode (quote c6EscSample true) = c6EscSample
    ∧ xmlDecode (quote c6EscSample false) = c6EscSample :=
  ⟨((c6_quote_roundtrip c6CdataSample).1 (by decide) (by decide) (by decide)).2,
    ((c6_quote_roundtrip c6EscSample).2.1 (by decide)).2,
    (c6_quote_roundtrip c6EscSample).2.2.2⟩

end Beatbox
